import Mathlib

/-!
Verification development for the Figmaker panel layout and compositing
engine.  The definitions below are a shallow embedding of the Python
source (`src/figmaker/plots/image_panel.py`, with the same arithmetic
appearing in `src/Figmaker.py` and `src/figmaker/layout.py`):

* Python `float` arithmetic on layout quantities is modelled by exact
  rational arithmetic (`ℚ`); every concrete input used in a theorem was
  chosen so that the IEEE-754 double computation agrees with the exact
  rational one.
* Python `int(x)` (truncation toward zero) is modelled by `pyInt`.
* Python `//` (floor division) on integers is modelled by `Int.fdiv`.
* PIL images are modelled by their pixel dimensions; the composite
  canvas records its dimensions, colour mode, background fill and the
  list of panel placements (position and resampled size), which is all
  the geometric information the layout algorithm produces.
* Paths that raise inside Python (division by zero for `num_cols = 0`,
  a zero panel width) are outside the regime the claims quantify over;
  the embedding makes them total in the usual way.
-/

/-- Python `int()` applied to a (rational-modelled) float: truncation
toward zero. -/
def pyInt (q : ℚ) : ℤ := if 0 ≤ q then ⌊q⌋ else ⌈q⌉

/-- One loaded panel image (`panel_data['pil_image']`), modelled by its
pixel dimensions. -/
structure Panel where
  width : ℕ
  height : ℕ
deriving DecidableEq

/-- The keyword arguments of `ImagePanelAssembler.assemble_figure`. -/
structure LayoutParams where
  targetWidthIn : ℚ
  dpi : ℕ
  numCols : ℕ
  paddingPt : ℤ
  marginPt : ℤ
  background : String
  labelStyle : String
deriving DecidableEq

/-- Source line `total_width_px = int(target_width_in * dpi)`. -/
def totalWidthPx (p : LayoutParams) : ℤ := pyInt (p.targetWidthIn * (p.dpi : ℚ))

/-- Source line `padding_px = int((padding_pt / 72) * dpi)`. -/
def paddingPx (p : LayoutParams) : ℤ := pyInt ((p.paddingPt : ℚ) / 72 * (p.dpi : ℚ))

/-- Source line `margin_px = int((margin_pt / 72) * dpi)`. -/
def marginPx (p : LayoutParams) : ℤ := pyInt ((p.marginPt : ℚ) / 72 * (p.dpi : ℚ))

/-- Source line `available_width = total_width_px - (2 * margin_px)`. -/
def availableWidth (p : LayoutParams) : ℤ := totalWidthPx p - 2 * marginPx p

/-- Source line `col_width_px = (available_width - (padding_px * (num_cols - 1))) // num_cols`. -/
def colWidthPx (p : LayoutParams) : ℤ :=
  Int.fdiv (availableWidth p - paddingPx p * ((p.numCols : ℤ) - 1)) (p.numCols : ℤ)

/-- Source lines `scale = col_width_px / img.width; scaled_h = int(img.height * scale)`. -/
def scaledHeight (p : LayoutParams) (pl : Panel) : ℤ :=
  pyInt ((pl.height : ℚ) * ((colWidthPx p : ℚ) / (pl.width : ℚ)))

/-- The scaled heights of all panels, in insertion order. -/
def scaledHeights (p : LayoutParams) (panels : List Panel) : List ℤ :=
  panels.map (scaledHeight p)

/-- The row-height accumulation loop: `current_row_max_h` is updated
with each panel and appended to `row_heights` at the end of each row
(`(i + 1) % num_cols == 0`) and after the last panel (`i + 1 == n`). -/
def rowHeightsAux (cols n : ℕ) : List ℤ → ℕ → ℤ → List ℤ
  | [], _, _ => []
  | h :: rest, i, cur =>
    let cur' := max cur h
    if (i + 1) % cols = 0 ∨ i + 1 = n then
      cur' :: rowHeightsAux cols n rest (i + 1) 0
    else
      rowHeightsAux cols n rest (i + 1) cur'

/-- The `row_heights` list as computed by the first loop of `assemble_figure`. -/
def rowHeights (cols : ℕ) (hs : List ℤ) : List ℤ := rowHeightsAux cols hs.length hs 0 0

/-- PIL colour mode of the composite canvas. -/
inductive Mode
  | RGB
  | RGBA
deriving DecidableEq

/-- The background fill passed to `Image.new`. -/
inductive Fill
  | rgb : ℕ → ℕ → ℕ → Fill
  | rgba : ℕ → ℕ → ℕ → ℕ → Fill
deriving DecidableEq

/-- One pasted panel: position `(x, y)` and resampled size `(w, h)`. -/
structure Placement where
  x : ℤ
  y : ℤ
  w : ℤ
  h : ℤ
deriving DecidableEq

/-- The composite canvas produced by `assemble_figure`. -/
structure Canvas where
  width : ℤ
  height : ℤ
  mode : Mode
  fill : Fill
  placements : List Placement
deriving DecidableEq

/-- Source method `ImagePanelAssembler._get_background_color`: a dict lookup with
default `(255, 255, 255)`; `"transparent"` maps to `None`. -/
def getBackgroundColor (background : String) : Option (ℕ × ℕ × ℕ) :=
  if background = "white" then some (255, 255, 255)
  else if background = "light_gray" then some (245, 245, 245)
  else if background = "transparent" then none
  else some (255, 255, 255)

/-- The placement loop of `assemble_figure`: `row_start_y` starts at
`margin_px` and is advanced by `row_heights[row_idx - 1] + padding_px`
whenever a new row starts (`col_idx == 0 and i > 0`); the panel at flat
index `i` is pasted at `x = margin_px + col_idx * (col_width_px +
padding_px)`, `y = row_start_y`, with size `(col_width_px, scaled_h)`. -/
def placeGo (cols : ℕ) (colW pad margin : ℤ) (rowHs : List ℤ) :
    List ℤ → ℕ → ℤ → List Placement
  | [], _, _ => []
  | h :: rest, i, rowY =>
    let colIdx := i % cols
    let rowY' := if colIdx = 0 ∧ 0 < i then
        rowY + rowHs.getD (i / cols - 1) 0 + pad
      else rowY
    ⟨margin + (colIdx : ℤ) * (colW + pad), rowY', colW, h⟩ ::
      placeGo cols colW pad margin rowHs rest (i + 1) rowY'

/-- Errors raised by `assemble_figure`; the only `raise` in the function
is `ValueError("No panels to assemble")` on an empty panel list, which
realises the spec's `EmptyInputError`. -/
inductive AssembleError
  | emptyInput
deriving DecidableEq

/-- The canvas built by `assemble_figure` once the panel list is known
to be non-empty. -/
def assembleCanvas (p : LayoutParams) (panels : List Panel) : Canvas :=
  let colW := colWidthPx p
  let heights := scaledHeights p panels
  let rowHs := rowHeights p.numCols heights
  let contentHeight := rowHs.sum + paddingPx p * ((rowHs.length : ℤ) - 1)
  let totalH := contentHeight + 2 * marginPx p
  let bg := getBackgroundColor p.background
  { width := totalWidthPx p
    height := totalH
    mode := match bg with
      | none => Mode.RGBA
      | some _ => Mode.RGB
    fill := match bg with
      | none => Fill.rgba 255 255 255 0
      | some (r, g, b) => Fill.rgb r g b
    placements := placeGo p.numCols colW (paddingPx p) (marginPx p) rowHs heights 0 (marginPx p) }

/-- Source method `ImagePanelAssembler.assemble_figure`: raises on an empty panel
list, otherwise returns the assembled composite canvas. -/
def assembleFigure (p : LayoutParams) (panels : List Panel) :
    Except AssembleError Canvas :=
  if panels.isEmpty then .error .emptyInput
  else .ok (assembleCanvas p panels)

/-- Increment applied to `row_start_y` before pasting the panel at flat
index `j` (for `j > 0`): a new row starts exactly when `j % cols = 0`,
and then `row_heights[j / cols - 1] + padding_px` is added. -/
def yInc (cols : ℕ) (pad : ℤ) (rowHs : List ℤ) (j : ℕ) : ℤ :=
  if j % cols = 0 then rowHs.getD (j / cols - 1) 0 + pad else 0

/-- Intersection of the two placed bounding boxes, read as half-open
pixel rectangles `[x, x + w) × [y, y + h)`: some pixel lies in both. -/
def Placement.Intersects (a b : Placement) : Prop :=
  ∃ px py : ℤ,
    (a.x ≤ px ∧ px < a.x + a.w ∧ a.y ≤ py ∧ py < a.y + a.h) ∧
    (b.x ≤ px ∧ px < b.x + b.w ∧ b.y ≤ py ∧ py < b.y + b.h)

/-- The 26 uppercase Latin letters, written out as the independent
reading of the spec's labelling policy for style `"A, B, C..."`. -/
def upperLatinLetters : List String :=
  ["A", "B", "C", "D", "E", "F", "G", "H", "I", "J", "K", "L", "M",
   "N", "O", "P", "Q", "R", "S", "T", "U", "V", "W", "X", "Y", "Z"]

/-- The 26 lowercase Latin letters (spec side for style `"a, b, c..."`). -/
def lowerLatinLetters : List String :=
  ["a", "b", "c", "d", "e", "f", "g", "h", "i", "j", "k", "l", "m",
   "n", "o", "p", "q", "r", "s", "t", "u", "v", "w", "x", "y", "z"]

/-- The hardcoded `roman_numerals` table of `_get_label_text`. -/
def romanNumeralsTable : List String :=
  ["i", "ii", "iii", "iv", "v", "vi", "vii", "viii", "ix", "x"]

/-- Fuel-driven greedy conversion to lowercase Roman numerals,
an independent (spec-side) formalisation of "the lowercase Roman
numeral of n" for the range the claims mention. -/
def romanGo : ℕ → ℕ → String
  | 0, _ => ""
  | fuel + 1, n =>
    if 10 ≤ n then "x" ++ romanGo fuel (n - 10)
    else if 9 ≤ n then "ix" ++ romanGo fuel (n - 9)
    else if 5 ≤ n then "v" ++ romanGo fuel (n - 5)
    else if 4 ≤ n then "iv" ++ romanGo fuel (n - 4)
    else if 1 ≤ n then "i" ++ romanGo fuel (n - 1)
    else ""

/-- Spec-side lowercase Roman numeral of `n`. -/
def toRomanLower (n : ℕ) : String := romanGo n n

/-- Source function `_get_label_text(label_style, panel_index)` (the
same code appears in `ImagePanelAssembler._get_label_text` and in
`figmaker.layout._get_label_text`): dispatch on the style string;
`chr(65 + i)` / `chr(97 + i)` are modelled by `Char.ofNat`, `str(i + 1)`
by `Nat.repr`, and the Roman branch indexes the hardcoded table with a
decimal fallback. -/
def getLabelText (labelStyle : String) (panelIndex : ℕ) : String :=
  if labelStyle = "A, B, C..." then String.singleton (Char.ofNat (65 + panelIndex))
  else if labelStyle = "a, b, c..." then String.singleton (Char.ofNat (97 + panelIndex))
  else if labelStyle = "1, 2, 3..." then Nat.repr (panelIndex + 1)
  else if labelStyle = "i, ii, iii..." then
    (if panelIndex < romanNumeralsTable.length
     then romanNumeralsTable.getD panelIndex ""
     else Nat.repr (panelIndex + 1))
  else String.singleton (Char.ofNat (65 + panelIndex))

/-- One text annotation record, `{'text': text, 'x': x, 'y': y}`. -/
structure NoteText where
  text : String
  x : ℤ
  y : ℤ
deriving DecidableEq

/-- A PIL image object as seen by `apply_annotations`: an object
identity (distinguishing the Python objects involved), the underlying
composite, and the list of texts drawn onto it.  `image.copy()` yields
a new object identity with the same content; `draw.text` appends to
`drawn` of the object being drawn on, leaving every other object
untouched. -/
structure OverlayImage where
  oid : ℕ
  base : Canvas
  drawn : List NoteText
deriving DecidableEq

/-- Python `image.copy()`: fresh object, same content. -/
def imageCopy (fresh : ℕ) (img : OverlayImage) : OverlayImage :=
  { img with oid := fresh }

/-- The annotation drawing loop: `for anno in annotations:
draw.text((anno['x'], anno['y']), anno['text'], ...)` on one image. -/
def drawTexts (img : OverlayImage) (notes : List NoteText) : OverlayImage :=
  { img with drawn := img.drawn ++ notes }

/-- Source method `ImagePanelAssembler.apply_annotations`: with an empty
annotation list the input image itself is returned; otherwise the texts
are drawn onto a copy (`annotated = image.copy()`) and the copy is
returned.  `fresh` is the object identity of the copy, distinct from
every pre-existing object identity in any actual run. -/
def applyNotes (fresh : ℕ) (img : OverlayImage) (notes : List NoteText) : OverlayImage :=
  if notes.isEmpty then img else drawTexts (imageCopy fresh img) notes

/-- One entry of the layout-info list of `create_legacy_layout`. -/
structure LegacyItem where
  width : ℤ
  height : ℤ
  x : ℤ
  row : ℕ
  col : ℕ
  y : ℤ
deriving DecidableEq

/-- First loop of `create_legacy_layout`: scaled size, `row = i //
num_cols`, `col = i % num_cols`, `x = margin_px + col * (col_width_px +
padding_px)`; `y` is filled in by the later loop and starts at 0. -/
def legacyItemsGo (colW pad mar : ℤ) (cols : ℕ) : List Panel → ℕ → List LegacyItem
  | [], _ => []
  | pl :: rest, i =>
    { width := colW
      height := pyInt ((pl.height : ℚ) * ((colW : ℚ) / (pl.width : ℚ)))
      x := mar + ((i % cols : ℕ) : ℤ) * (colW + pad)
      row := i / cols
      col := i % cols
      y := 0 } :: legacyItemsGo colW pad mar cols rest (i + 1)

/-- Final loop of `create_legacy_layout`: `current_y` starts at
`margin_px` and advances by `row_heights[row - 1] + padding_px` whenever
`row > 0 and i % num_cols == 0`; each item's `y` is set to `current_y`. -/
def legacyYGo (cols : ℕ) (pad : ℤ) (rowHs : List ℤ) : List LegacyItem → ℕ → ℤ → List LegacyItem
  | [], _, _ => []
  | item :: rest, i, curY =>
    let curY' := if 0 < item.row ∧ i % cols = 0 then
        curY + rowHs.getD (item.row - 1) 0 + pad
      else curY
    { item with y := curY' } :: legacyYGo cols pad rowHs rest (i + 1) curY'

/-- Source function `figmaker.layout.create_legacy_layout`: returns
`(0, 0, [])` for an empty panel list (its first statement), otherwise
the total pixel size and per-panel layout info computed with the same
arithmetic as `assemble_figure`. -/
def createLegacyLayout (panels : List Panel) (targetWidthIn : ℚ) (dpi numCols : ℕ)
    (paddingPt marginPt : ℤ) : ℤ × ℤ × List LegacyItem :=
  if panels.isEmpty then (0, 0, [])
  else
    let totalW := pyInt (targetWidthIn * (dpi : ℚ))
    let pad := pyInt ((paddingPt : ℚ) / 72 * (dpi : ℚ))
    let mar := pyInt ((marginPt : ℚ) / 72 * (dpi : ℚ))
    let avail := totalW - 2 * mar
    let colW := Int.fdiv (avail - pad * ((numCols : ℤ) - 1)) (numCols : ℤ)
    let items := legacyItemsGo colW pad mar numCols panels 0
    let hs := items.map LegacyItem.height
    let rowHs := rowHeightsAux numCols panels.length hs 0 0
    let contentH := rowHs.sum + pad * ((rowHs.length : ℤ) - 1)
    let totalH := contentH + 2 * mar
    (totalW, totalH, legacyYGo numCols pad rowHs items 0 mar)

/-- The layout parameters of the spec's worked example scenario
(section 8): `width_in=4.0, dpi=150, cols=2, padding_pt=10,
margin_pt=12`, opaque white background. -/
def exampleParams : LayoutParams :=
  { targetWidthIn := 4
    dpi := 150
    numCols := 2
    paddingPt := 10
    marginPt := 12
    background := "white"
    labelStyle := "A, B, C..." }

/-- The two panels of the spec's worked example: 200 by 100 and 50 by
150 pixels. -/
def examplePanels : List Panel := [⟨200, 100⟩, ⟨50, 150⟩]

/-- Same layout as the worked example but with the transparent
background selection. -/
def exampleTransparentParams : LayoutParams :=
  { exampleParams with background := "transparent" }

/-- Input refuting the round-based width formula: 1.75 inches at 1 dpi
(both exactly representable as doubles, so the float computation is the
exact rational one). `int(1.75) = 1` but `round(1.75) = 2`. -/
def widthCexParams : LayoutParams :=
  { targetWidthIn := 7 / 4
    dpi := 1
    numCols := 1
    paddingPt := 0
    marginPt := 0
    background := "white"
    labelStyle := "A, B, C..." }

/-- A single 1 by 1 panel. -/
def onePixelPanels : List Panel := [⟨1, 1⟩]

/-- Degenerate-geometry input: 1.0 inch at 72 dpi with a 36 pt margin
on each side consumes the full width, so `available_width = 0` and
`col_width_px = 0`. -/
def degenerateParams : LayoutParams :=
  { targetWidthIn := 1
    dpi := 72
    numCols := 1
    paddingPt := 0
    marginPt := 36
    background := "white"
    labelStyle := "A, B, C..." }

/-- A single 10 by 10 panel. -/
def tenPixelPanels : List Panel := [⟨10, 10⟩]

/-- Layout whose column width is 4 (4 inches at 1 dpi, one column, no
padding or margin), used with a 3 by 2 panel: the exact scaled height is
8/3, which truncation and rounding send to different integers. -/
def scaleCexParams : LayoutParams :=
  { targetWidthIn := 4
    dpi := 1
    numCols := 1
    paddingPt := 0
    marginPt := 0
    background := "white"
    labelStyle := "A, B, C..." }

/-- The 3 by 2 panel for the scaled-height counterexample. -/
def threeByTwoPanel : Panel := ⟨3, 2⟩

/-- A concrete composited image (the worked example's canvas) wrapped
as a PIL image object with identity 0 and nothing drawn on it yet. -/
def exampleImage : OverlayImage :=
  { oid := 0, base := assembleCanvas exampleParams examplePanels, drawn := [] }

/-- A concrete annotation list. -/
def exampleNotes : List NoteText := [⟨"arrow", 40, 60⟩]

/-- Default placement used when reading a placement list out of range. -/
def noPlacement : Placement := ⟨0, 0, 0, 0⟩

/-! ## Bridging lemmas -/

theorem pyInt_eq_floor (q : ℚ) (h : 0 ≤ q) : pyInt q = ⌊q⌋ := by
  rw [pyInt, if_pos h]

theorem assembleFigure_cons (p : LayoutParams) (a : Panel) (l : List Panel) :
    assembleFigure p (a :: l) = .ok (assembleCanvas p (a :: l)) := rfl

/-! ## C4: empty input fails -/

/-- C4: for every parameter combination, calling assemble with an empty
panel list fails with the empty-input error (realised in the source as
`raise ValueError("No panels to assemble")`) and produces no canvas. -/
theorem c4_empty_input_error (p : LayoutParams) :
    assembleFigure p [] = .error .emptyInput := rfl

/-! ## C10: create_legacy_layout silently accepts empty input -/

/-- C10: for every parameter combination, `create_legacy_layout` applied
to an empty panel list returns `(0, 0, [])` normally, raising no error,
unlike the assembler's failure on empty input. -/
theorem c10_legacy_empty_returns_zero (targetWidthIn : ℚ) (dpi numCols : ℕ)
    (paddingPt marginPt : ℤ) :
    createLegacyLayout [] targetWidthIn dpi numCols paddingPt marginPt = (0, 0, []) := rfl

/-! ## C2: the worked example scenario -/

/-- C2 counterexample: on the spec's example input the code computes
`padding_px = int(10 / 72 * 150) = 20` (not 21), `col_width_px = 265`
(not 264), and a 600 x 845 canvas (not 600 x 842), so the claimed
scenario values are false. -/
theorem c2_example_scenario_cex :
    paddingPx exampleParams = 20 ∧
    colWidthPx exampleParams = 265 ∧
    (assembleCanvas exampleParams examplePanels).height = 845 ∧
    ¬ (paddingPx exampleParams = 21 ∧ colWidthPx exampleParams = 264 ∧
       (assembleCanvas exampleParams examplePanels).height = 842) := by
  with_unfolding_all decide

/-- C2 amended: two panels of sizes 200 x 100 and 50 x 150 with
`width_in=4.0, dpi=150, cols=2, padding_pt=10, margin_pt=12` and opaque
white background give `total_width_px = 600`, `margin_px = 25`,
`padding_px = 20`, `available_width = 550`, `col_width_px = 265`, panels
scaled to 265 x 132 and 265 x 795, row height 795, and a 600 x 845 RGB
canvas with the panels pasted at (25, 25) and (310, 25). -/
theorem c2_example_scenario :
    assembleFigure exampleParams examplePanels =
      .ok { width := 600, height := 845, mode := .RGB, fill := .rgb 255 255 255,
            placements := [⟨25, 25, 265, 132⟩, ⟨310, 25, 265, 795⟩] } ∧
    totalWidthPx exampleParams = 600 ∧
    marginPx exampleParams = 25 ∧
    paddingPx exampleParams = 20 ∧
    availableWidth exampleParams = 550 ∧
    colWidthPx exampleParams = 265 ∧
    scaledHeights exampleParams examplePanels = [132, 795] ∧
    rowHeights exampleParams.numCols (scaledHeights exampleParams examplePanels) = [795] :=
  ⟨by with_unfolding_all rfl, by with_unfolding_all decide⟩

/-! ## C1: composite width -/

/-- C1 counterexample: at 1.75 inches and 1 dpi (a valid input: one
panel, positive dpi) the returned canvas has width `int(1.75 * 1) = 1`,
whereas `round(1.75 * 1) = 2`; the code truncates, it does not round. -/
theorem c1_width_round_cex :
    (assembleCanvas widthCexParams onePixelPanels).width = 1 ∧
    round (widthCexParams.targetWidthIn * (widthCexParams.dpi : ℚ)) = 2 ∧
    assembleFigure widthCexParams onePixelPanels =
      .ok (assembleCanvas widthCexParams onePixelPanels) :=
  ⟨by with_unfolding_all decide, by with_unfolding_all decide, rfl⟩

/-- C1 amended: for every layout input with a non-negative target width
on which assemble returns a canvas, the canvas's pixel width is exactly
the truncation `floor(target_width_in * dpi)` (the code's
`int(target_width_in * dpi)`), not the rounding of that product. -/
theorem c1_width_eq_floor (p : LayoutParams) (panels : List Panel) (c : Canvas)
    (hw : 0 ≤ p.targetWidthIn) (hok : assembleFigure p panels = .ok c) :
    c.width = ⌊p.targetWidthIn * (p.dpi : ℚ)⌋ := by
  cases panels with
  | nil => exact absurd hok (by simp [assembleFigure])
  | cons a l =>
    rw [assembleFigure_cons] at hok
    injection hok with hc
    rw [← hc]
    show totalWidthPx p = _
    rw [totalWidthPx, pyInt_eq_floor]
    exact mul_nonneg hw (Nat.cast_nonneg _)

theorem c1_width_eq_floor_witness :
    0 ≤ widthCexParams.targetWidthIn ∧
    (assembleCanvas widthCexParams onePixelPanels).width =
      ⌊widthCexParams.targetWidthIn * (widthCexParams.dpi : ℚ)⌋ :=
  ⟨by with_unfolding_all decide,
   c1_width_eq_floor widthCexParams onePixelPanels _
     (by with_unfolding_all decide) (assembleFigure_cons _ _ _)⟩

/-! ## C3: no degenerate-geometry failure -/

/-- C3 (code bug): on a 1.0 inch wide figure at 72 dpi with a 36 pt
margin, `available_width = 0` and `col_width_px = 0`, yet the code
raises no layout error; it silently returns a degenerate 72 x 72 canvas
with the panel resampled to 0 x 0, contradicting the required
`InvalidLayoutError` failure. -/
theorem c3_no_invalid_layout_failure :
    availableWidth degenerateParams = 0 ∧
    colWidthPx degenerateParams = 0 ∧
    assembleFigure degenerateParams tenPixelPanels =
      .ok { width := 72, height := 72, mode := .RGB, fill := .rgb 255 255 255,
            placements := [⟨36, 36, 0, 0⟩] } :=
  ⟨by with_unfolding_all decide, by with_unfolding_all decide, by with_unfolding_all rfl⟩

/-! ## C5: scaled panel size -/

/-- C5 counterexample: with column width 4 and a 3 x 2 panel the code
scales to height `int(2 * 4/3) = 2`, whereas `round(2 * 4/3) = 3`; the
claimed target size `(col_width_px, round(h * col_width_px / w))` is
wrong. -/
theorem c5_scaled_round_cex :
    colWidthPx scaleCexParams = 4 ∧
    scaledHeight scaleCexParams threeByTwoPanel = 2 ∧
    round (((threeByTwoPanel.height : ℚ) * (colWidthPx scaleCexParams : ℚ)) /
      (threeByTwoPanel.width : ℚ)) = 3 := by
  with_unfolding_all decide

/-- C5 amended: for every panel with positive original width and every
layout with positive column width, the target scaled size is exactly
`(col_width_px, floor(h * col_width_px / w))` — truncation, not
rounding — and the scaled height is within 1 pixel of the exact
aspect-preserving value `h * col_width_px / w`. -/
theorem c5_scaled_size_floor (p : LayoutParams) (pl : Panel)
    (hcw : 1 ≤ colWidthPx p) (hw : 1 ≤ pl.width) :
    scaledHeight p pl =
      ⌊((pl.height : ℚ) * (colWidthPx p : ℚ)) / (pl.width : ℚ)⌋ ∧
    |(scaledHeight p pl : ℚ) -
      ((pl.height : ℚ) * (colWidthPx p : ℚ)) / (pl.width : ℚ)| < 1 := by
  have hq : (pl.height : ℚ) * ((colWidthPx p : ℚ) / (pl.width : ℚ)) =
      ((pl.height : ℚ) * (colWidthPx p : ℚ)) / (pl.width : ℚ) := by ring
  have hcw0 : (0 : ℚ) ≤ (colWidthPx p : ℚ) := by
    exact_mod_cast le_trans zero_le_one hcw
  have hq0 : 0 ≤ ((pl.height : ℚ) * (colWidthPx p : ℚ)) / (pl.width : ℚ) :=
    div_nonneg (mul_nonneg (Nat.cast_nonneg _) hcw0) (Nat.cast_nonneg _)
  have hfl : scaledHeight p pl =
      ⌊((pl.height : ℚ) * (colWidthPx p : ℚ)) / (pl.width : ℚ)⌋ := by
    rw [scaledHeight, hq, pyInt_eq_floor _ hq0]
  refine ⟨hfl, ?_⟩
  rw [hfl]
  have h1 := Int.floor_le (((pl.height : ℚ) * (colWidthPx p : ℚ)) / (pl.width : ℚ))
  have h2 := Int.sub_one_lt_floor (((pl.height : ℚ) * (colWidthPx p : ℚ)) / (pl.width : ℚ))
  rw [abs_lt]
  constructor <;> linarith

theorem c5_scaled_size_floor_witness :
    (1 ≤ colWidthPx scaleCexParams ∧ 1 ≤ threeByTwoPanel.width) ∧
    scaledHeight scaleCexParams threeByTwoPanel =
      ⌊((threeByTwoPanel.height : ℚ) * (colWidthPx scaleCexParams : ℚ)) /
        (threeByTwoPanel.width : ℚ)⌋ :=
  ⟨⟨by with_unfolding_all decide, by decide⟩,
   (c5_scaled_size_floor scaleCexParams threeByTwoPanel
     (by with_unfolding_all decide) (by decide)).1⟩

/-! ## C7: background modes -/

/-- C7: for every non-empty panel list, the transparent background
selection yields an RGBA canvas whose background fill is fully
transparent (alpha 0), while the opaque white and light-gray selections
yield RGB canvases (no alpha channel) filled with the respective solid
colors. -/
theorem c7_background_modes (p : LayoutParams) (panels : List Panel)
    (hne : panels ≠ []) :
    (p.background = "transparent" →
      assembleFigure p panels = .ok (assembleCanvas p panels) ∧
      (assembleCanvas p panels).mode = .RGBA ∧
      (assembleCanvas p panels).fill = .rgba 255 255 255 0) ∧
    (p.background = "white" →
      assembleFigure p panels = .ok (assembleCanvas p panels) ∧
      (assembleCanvas p panels).mode = .RGB ∧
      (assembleCanvas p panels).fill = .rgb 255 255 255) ∧
    (p.background = "light_gray" →
      assembleFigure p panels = .ok (assembleCanvas p panels) ∧
      (assembleCanvas p panels).mode = .RGB ∧
      (assembleCanvas p panels).fill = .rgb 245 245 245) := by
  obtain ⟨a, l, rfl⟩ : ∃ a l, panels = a :: l := by
    cases panels with
    | nil => exact absurd rfl hne
    | cons a l => exact ⟨a, l, rfl⟩
  refine ⟨fun hb => ?_, fun hb => ?_, fun hb => ?_⟩ <;>
    exact ⟨assembleFigure_cons p a l, by simp [assembleCanvas, getBackgroundColor, hb],
           by simp [assembleCanvas, getBackgroundColor, hb]⟩

theorem c7_background_modes_witness :
    assembleFigure exampleTransparentParams examplePanels =
      .ok (assembleCanvas exampleTransparentParams examplePanels) ∧
    (assembleCanvas exampleTransparentParams examplePanels).mode = .RGBA ∧
    (assembleCanvas exampleTransparentParams examplePanels).fill = .rgba 255 255 255 0 :=
  (c7_background_modes exampleTransparentParams examplePanels (by decide)).1 rfl

/-! ## C8: label text policy -/

/-- C8: for zero-based panel index `i`, the stamped label text is the
i-th uppercase Latin letter under style "A, B, C..." for `i < 26` (the
lowercase equivalent under "a, b, c..."), the decimal string of `i + 1`
under "1, 2, 3...", and under "i, ii, iii..." the lowercase Roman
numeral of `i + 1` for `i ≤ 9` with fallback to the decimal string of
`i + 1` for every `i ≥ 10`. -/
theorem c8_label_text_policy :
    (∀ i, i < 26 → getLabelText "A, B, C..." i = upperLatinLetters.getD i "") ∧
    (∀ i, i < 26 → getLabelText "a, b, c..." i = lowerLatinLetters.getD i "") ∧
    (∀ i, getLabelText "1, 2, 3..." i = Nat.repr (i + 1)) ∧
    (∀ i, i < 10 → getLabelText "i, ii, iii..." i = toRomanLower (i + 1)) ∧
    (∀ i, 10 ≤ i → getLabelText "i, ii, iii..." i = Nat.repr (i + 1)) := by
  refine ⟨by with_unfolding_all decide, by with_unfolding_all decide, ?_, by with_unfolding_all decide, ?_⟩
  · intro i
    rw [getLabelText, if_neg (by decide), if_neg (by decide), if_pos rfl]
  · intro i hi
    rw [getLabelText, if_neg (by decide), if_neg (by decide), if_neg (by decide),
      if_pos rfl, if_neg]
    have hlen : romanNumeralsTable.length = 10 := rfl
    omega

theorem c8_label_text_policy_witness :
    getLabelText "A, B, C..." 2 = upperLatinLetters.getD 2 "" ∧
    getLabelText "i, ii, iii..." 3 = toRomanLower 4 ∧
    getLabelText "i, ii, iii..." 12 = Nat.repr 13 :=
  ⟨c8_label_text_policy.1 2 (by decide),
   c8_label_text_policy.2.2.2.1 3 (by decide),
   c8_label_text_policy.2.2.2.2 12 (by decide)⟩

/-! ## C9: annotation overlay -/

/-- C9 counterexample: with the empty annotation list,
`apply_annotations` returns the input image object itself (`if not
self.annotations: return image`), not a distinct copy, so the claim's
"distinct object ... including the empty list" is false. -/
theorem c9_empty_returns_same_object :
    applyNotes 1 exampleImage [] = exampleImage ∧
    (applyNotes 1 exampleImage []).oid = exampleImage.oid :=
  ⟨rfl, rfl⟩

/-- C9 amended: for every non-empty annotation list the overlay renders
onto a copy and returns it — the returned object carries the fresh
identity (distinct from the input's whenever the fresh identity is), its
content is the input's content with the annotations drawn on top in
insertion order, and the input image is left unchanged — while for the
empty annotation list the input image itself is returned unmodified, so
the original always remains valid for re-rendering with a different
annotation set. -/
theorem c9_applyNotes_copies (fresh : ℕ) (img : OverlayImage) (notes : List NoteText)
    (hne : notes ≠ []) :
    (applyNotes fresh img notes).oid = fresh ∧
    (fresh ≠ img.oid → (applyNotes fresh img notes).oid ≠ img.oid) ∧
    (applyNotes fresh img notes).base = img.base ∧
    (applyNotes fresh img notes).drawn = img.drawn ++ notes ∧
    applyNotes fresh img [] = img := by
  have he : notes.isEmpty = false := by
    cases notes with
    | nil => exact absurd rfl hne
    | cons a l => rfl
  refine ⟨?_, ?_, ?_, ?_, rfl⟩ <;>
    simp [applyNotes, he, drawTexts, imageCopy]

theorem c9_applyNotes_copies_witness :
    (applyNotes 1 exampleImage exampleNotes).oid = 1 ∧
    (1 ≠ exampleImage.oid → (applyNotes 1 exampleImage exampleNotes).oid ≠ exampleImage.oid) ∧
    (applyNotes 1 exampleImage exampleNotes).base = exampleImage.base ∧
    (applyNotes 1 exampleImage exampleNotes).drawn = exampleImage.drawn ++ exampleNotes ∧
    applyNotes 1 exampleImage [] = exampleImage :=
  c9_applyNotes_copies 1 exampleImage exampleNotes (by decide)

/-! ## C6 machinery: division bookkeeping -/

theorem div_succ_of_mod_eq_zero {cols i : ℕ} (h : (i + 1) % cols = 0) :
    (i + 1) / cols = i / cols + 1 := by
  rw [Nat.succ_div, if_pos (Nat.dvd_of_mod_eq_zero h)]

theorem div_succ_of_mod_ne_zero {cols i : ℕ} (h : (i + 1) % cols ≠ 0) :
    (i + 1) / cols = i / cols := by
  rw [Nat.succ_div, if_neg fun hd => h (Nat.mod_eq_zero_of_dvd hd), add_zero]

theorem getD_nonneg_of_forall (L : List ℤ) (hL : ∀ x ∈ L, 0 ≤ x) (k : ℕ) :
    0 ≤ L.getD k 0 := by
  induction L generalizing k with
  | nil => simp
  | cons a l ih =>
    cases k with
    | zero => simpa using hL a (by simp)
    | succ k => simpa using ih (fun x hx => hL x (by simp [hx])) k

/-! ## C6 machinery: the placement loop -/

theorem placeGo_length (cols : ℕ) (colW pad margin : ℤ) (rowHs : List ℤ) :
    ∀ (hs : List ℤ) (i : ℕ) (y : ℤ),
      (placeGo cols colW pad margin rowHs hs i y).length = hs.length := by
  intro hs
  induction hs with
  | nil => intro i y; rfl
  | cons h rest ih => intro i y; simp [placeGo, ih]

theorem placeGo_getD_x (cols : ℕ) (colW pad margin : ℤ) (rowHs : List ℤ) :
    ∀ (hs : List ℤ) (i : ℕ) (y : ℤ) (k : ℕ), k < hs.length →
      ((placeGo cols colW pad margin rowHs hs i y).getD k noPlacement).x =
        margin + (((i + k) % cols : ℕ) : ℤ) * (colW + pad) := by
  intro hs
  induction hs with
  | nil => intro i y k hk; simp at hk
  | cons h rest ih =>
    intro i y k hk
    cases k with
    | zero => simp [placeGo]
    | succ k =>
      have hk' : k < rest.length := by simpa using hk
      have hrec := ih (i + 1)
        (if i % cols = 0 ∧ 0 < i then y + rowHs.getD (i / cols - 1) 0 + pad else y) k hk'
      have e : i + 1 + k = i + (k + 1) := by omega
      rw [e] at hrec
      simpa [placeGo] using hrec

theorem placeGo_getD_w (cols : ℕ) (colW pad margin : ℤ) (rowHs : List ℤ) :
    ∀ (hs : List ℤ) (i : ℕ) (y : ℤ) (k : ℕ), k < hs.length →
      ((placeGo cols colW pad margin rowHs hs i y).getD k noPlacement).w = colW := by
  intro hs
  induction hs with
  | nil => intro i y k hk; simp at hk
  | cons h rest ih =>
    intro i y k hk
    cases k with
    | zero => simp [placeGo]
    | succ k =>
      have hk' : k < rest.length := by simpa using hk
      simpa [placeGo] using ih (i + 1) _ k hk'

theorem placeGo_getD_h (cols : ℕ) (colW pad margin : ℤ) (rowHs : List ℤ) :
    ∀ (hs : List ℤ) (i : ℕ) (y : ℤ) (k : ℕ), k < hs.length →
      ((placeGo cols colW pad margin rowHs hs i y).getD k noPlacement).h = hs.getD k 0 := by
  intro hs
  induction hs with
  | nil => intro i y k hk; simp at hk
  | cons h rest ih =>
    intro i y k hk
    cases k with
    | zero => simp [placeGo]
    | succ k =>
      have hk' : k < rest.length := by simpa using hk
      simpa [placeGo] using ih (i + 1) _ k hk'

theorem placeGo_getD_y_zero (cols : ℕ) (colW pad margin : ℤ) (rowHs : List ℤ)
    (h : ℤ) (rest : List ℤ) (i : ℕ) (y : ℤ) :
    ((placeGo cols colW pad margin rowHs (h :: rest) i y).getD 0 noPlacement).y =
      (if i % cols = 0 ∧ 0 < i then y + rowHs.getD (i / cols - 1) 0 + pad else y) := by
  simp [placeGo]

theorem placeGo_getD_y_succ (cols : ℕ) (colW pad margin : ℤ) (rowHs : List ℤ) :
    ∀ (hs : List ℤ) (i : ℕ) (y : ℤ) (k : ℕ), k + 1 < hs.length →
      ((placeGo cols colW pad margin rowHs hs i y).getD (k + 1) noPlacement).y =
        ((placeGo cols colW pad margin rowHs hs i y).getD k noPlacement).y +
          yInc cols pad rowHs (i + (k + 1)) := by
  intro hs
  induction hs with
  | nil => intro i y k hk; simp at hk
  | cons h rest ih =>
    intro i y k hk
    cases k with
    | zero =>
      cases rest with
      | nil => simp at hk
      | cons h2 rest2 =>
        rw [show ((placeGo cols colW pad margin rowHs (h :: h2 :: rest2) i y).getD 1
              noPlacement) = ((placeGo cols colW pad margin rowHs (h2 :: rest2) (i + 1)
              (if i % cols = 0 ∧ 0 < i then y + rowHs.getD (i / cols - 1) 0 + pad else y)).getD 0
              noPlacement) from by simp [placeGo]]
        rw [placeGo_getD_y_zero, placeGo_getD_y_zero, yInc]
        by_cases hm : (i + 1) % cols = 0
        · rw [if_pos ⟨hm, Nat.succ_pos i⟩, if_pos hm]
          ring
        · rw [if_neg (fun hc => hm hc.1), if_neg hm]
          ring
    | succ k =>
      have hk' : k + 1 < rest.length := by simpa using hk
      have hrec := ih (i + 1)
        (if i % cols = 0 ∧ 0 < i then y + rowHs.getD (i / cols - 1) 0 + pad else y) k hk'
      have e : i + 1 + (k + 1) = i + (k + 1 + 1) := by omega
      rw [e] at hrec
      simpa [placeGo] using hrec

/-! ## C6 machinery: the row-heights loop -/

theorem rowHeightsAux_nonneg (cols n : ℕ) :
    ∀ (hs : List ℤ) (i : ℕ) (cur : ℤ), 0 ≤ cur → (∀ x ∈ hs, 0 ≤ x) →
      ∀ m ∈ rowHeightsAux cols n hs i cur, 0 ≤ m := by
  intro hs
  induction hs with
  | nil => intro i cur _ _ m hm; simp [rowHeightsAux] at hm
  | cons h rest ih =>
    intro i cur hcur hall m hm
    have hmax : 0 ≤ max cur h := le_trans hcur (le_max_left _ _)
    rw [rowHeightsAux] at hm
    by_cases hc : (i + 1) % cols = 0 ∨ i + 1 = n
    · rw [if_pos hc] at hm
      rcases List.mem_cons.mp hm with rfl | hm'
      · exact hmax
      · exact ih (i + 1) 0 le_rfl (fun x hx => hall x (by simp [hx])) m hm'
    · rw [if_neg hc] at hm
      exact ih (i + 1) (max cur h) hmax (fun x hx => hall x (by simp [hx])) m hm

theorem rowHeightsAux_head_ge (cols n : ℕ) :
    ∀ (hs : List ℤ) (i : ℕ) (cur : ℤ), i + hs.length = n → hs ≠ [] →
      cur ≤ (rowHeightsAux cols n hs i cur).getD 0 0 := by
  intro hs
  induction hs with
  | nil => intro i cur _ hne; exact absurd rfl hne
  | cons h rest ih =>
    intro i cur hlen _
    rw [rowHeightsAux]
    by_cases hc : (i + 1) % cols = 0 ∨ i + 1 = n
    · rw [if_pos hc]
      simpa using le_max_left cur h
    · rw [if_neg hc]
      have hrest : rest ≠ [] := by
        intro hr
        apply hc
        right
        simp [hr] at hlen
        omega
      have hlen' : i + 1 + rest.length = n := by simp at hlen; omega
      exact le_trans (le_max_left cur h) (ih (i + 1) (max cur h) hlen' hrest)

theorem rowHeightsAux_getD_le (cols n : ℕ) :
    ∀ (hs : List ℤ) (i : ℕ) (cur : ℤ) (k : ℕ), i + hs.length = n → k < hs.length →
      hs.getD k 0 ≤ (rowHeightsAux cols n hs i cur).getD ((i + k) / cols - i / cols) 0 := by
  intro hs
  induction hs with
  | nil => intro i cur k _ hk; simp at hk
  | cons h rest ih =>
    intro i cur k hlen hk
    have hlen' : i + 1 + rest.length = n := by simp at hlen; omega
    cases k with
    | zero =>
      rw [rowHeightsAux]
      simp only [Nat.add_zero, Nat.sub_self, List.getD_cons_zero]
      by_cases hc : (i + 1) % cols = 0 ∨ i + 1 = n
      · rw [if_pos hc]
        simpa using le_max_right cur h
      · rw [if_neg hc]
        have hrest : rest ≠ [] := by
          intro hr
          apply hc
          right
          simp [hr] at hlen'
          omega
        exact le_trans (le_max_right cur h)
          (rowHeightsAux_head_ge cols n rest (i + 1) (max cur h) hlen' hrest)
    | succ k =>
      have hk' : k < rest.length := by simpa using hk
      rw [rowHeightsAux, List.getD_cons_succ]
      by_cases hc : (i + 1) % cols = 0 ∨ i + 1 = n
      · have hmod : (i + 1) % cols = 0 := by
          rcases hc with hm | he
          · exact hm
          · omega
        rw [if_pos hc]
        have hdiv1 : (i + 1) / cols = i / cols + 1 := div_succ_of_mod_eq_zero hmod
        have hrec := ih (i + 1) 0 k hlen' hk'
        have hmono : (i + 1) / cols ≤ (i + 1 + k) / cols :=
          Nat.div_le_div_right (Nat.le_add_right _ _)
        have eidx : (i + (k + 1)) / cols - i / cols =
            ((i + 1 + k) / cols - (i + 1) / cols) + 1 := by
          have e1 : i + (k + 1) = i + 1 + k := by omega
          rw [e1, hdiv1] at *
          generalize hX : (i + 1 + k) / cols = X at *
          generalize hY : i / cols = Y at *
          omega
        rw [eidx, List.getD_cons_succ]
        exact hrec
      · have hmod : (i + 1) % cols ≠ 0 := fun hm => hc (Or.inl hm)
        rw [if_neg hc]
        have hdiv1 : (i + 1) / cols = i / cols := div_succ_of_mod_ne_zero hmod
        have hrec := ih (i + 1) (max cur h) k hlen' hk'
        have eidx : (i + (k + 1)) / cols - i / cols =
            (i + 1 + k) / cols - (i + 1) / cols := by
          have e1 : i + (k + 1) = i + 1 + k := by omega
          rw [e1, hdiv1]
        rw [eidx]
        exact hrec

/-! ## C6 machinery: non-overlap of the placement loop -/

theorem intersects_of_intersects {a b : Placement} (h : a.Intersects b) : b.Intersects a := by
  obtain ⟨px, py, h1, h2⟩ := h
  exact ⟨px, py, h2, h1⟩

theorem placeGo_no_overlap (cols : ℕ) (colW pad margin : ℤ) (rowHs hs : List ℤ)
    (hcw : 1 ≤ colW) (hpad : 0 ≤ pad)
    (hrow0 : ∀ m ∈ rowHs, 0 ≤ m)
    (hle : ∀ k, k < hs.length → hs.getD k 0 ≤ rowHs.getD (k / cols) 0) :
    ∀ i j, i < hs.length → j < hs.length → i ≠ j →
      ¬ ((placeGo cols colW pad margin rowHs hs 0 margin).getD i noPlacement).Intersects
        ((placeGo cols colW pad margin rowHs hs 0 margin).getD j noPlacement) := by
  have hx : ∀ k, k < hs.length →
      ((placeGo cols colW pad margin rowHs hs 0 margin).getD k noPlacement).x =
        margin + ((k % cols : ℕ) : ℤ) * (colW + pad) := by
    intro k hk
    simpa using placeGo_getD_x cols colW pad margin rowHs hs 0 margin k hk
  have hwf : ∀ k, k < hs.length →
      ((placeGo cols colW pad margin rowHs hs 0 margin).getD k noPlacement).w = colW :=
    fun k hk => placeGo_getD_w cols colW pad margin rowHs hs 0 margin k hk
  have hhf : ∀ k, k < hs.length →
      ((placeGo cols colW pad margin rowHs hs 0 margin).getD k noPlacement).h = hs.getD k 0 :=
    fun k hk => placeGo_getD_h cols colW pad margin rowHs hs 0 margin k hk
  have hstep : ∀ k, k + 1 < hs.length →
      ((placeGo cols colW pad margin rowHs hs 0 margin).getD (k + 1) noPlacement).y =
        ((placeGo cols colW pad margin rowHs hs 0 margin).getD k noPlacement).y +
          yInc cols pad rowHs (k + 1) := by
    intro k hk
    simpa using placeGo_getD_y_succ cols colW pad margin rowHs hs 0 margin k hk
  have hincnn : ∀ j, 0 ≤ yInc cols pad rowHs j := by
    intro j
    rw [yInc]
    by_cases hm : j % cols = 0
    · rw [if_pos hm]
      have := getD_nonneg_of_forall rowHs hrow0 (j / cols - 1)
      linarith
    · rw [if_neg hm]
  have hmono : ∀ k l, k ≤ l → l < hs.length →
      ((placeGo cols colW pad margin rowHs hs 0 margin).getD k noPlacement).y ≤
        ((placeGo cols colW pad margin rowHs hs 0 margin).getD l noPlacement).y := by
    intro k l hkl
    induction hkl with
    | refl => intro _; exact le_refl _
    | @step m hm ihm =>
      intro hln
      have hmn : m < hs.length := Nat.lt_of_succ_lt hln
      calc ((placeGo cols colW pad margin rowHs hs 0 margin).getD k noPlacement).y
          ≤ ((placeGo cols colW pad margin rowHs hs 0 margin).getD m noPlacement).y :=
            ihm hmn
        _ ≤ ((placeGo cols colW pad margin rowHs hs 0 margin).getD (m + 1) noPlacement).y := by
            rw [hstep m hln]
            linarith [hincnn (m + 1)]
  have hrowstep : ∀ k l, k < l → l < hs.length → k / cols < l / cols →
      ((placeGo cols colW pad margin rowHs hs 0 margin).getD k noPlacement).y +
        rowHs.getD (k / cols) 0 ≤
      ((placeGo cols colW pad margin rowHs hs 0 margin).getD l noPlacement).y := by
    intro k l hkl
    induction hkl with
    | refl =>
      intro hln hdiv
      have hmod : (k + 1) % cols = 0 := by
        by_contra hm
        rw [div_succ_of_mod_ne_zero hm] at hdiv
        omega
      have hdiv1 : (k + 1) / cols = k / cols + 1 := div_succ_of_mod_eq_zero hmod
      rw [hstep k hln, yInc, if_pos hmod, hdiv1]
      simp only [Nat.add_sub_cancel]
      linarith
    | @step m hm ihm =>
      intro hln hdiv
      have hmn : m < hs.length := Nat.lt_of_succ_lt hln
      have hkm : k ≤ m := Nat.le_of_succ_le hm
      by_cases hdm : k / cols < m / cols
      · have h1 := ihm hmn hdm
        have h2 := hstep m hln
        linarith [hincnn (m + 1), h1, h2.ge, h2.le]
      · have hde : k / cols = m / cols :=
          le_antisymm (Nat.div_le_div_right hkm) (not_lt.mp hdm)
        have hmod : (m + 1) % cols = 0 := by
          by_contra hmc
          rw [div_succ_of_mod_ne_zero hmc, ← hde] at hdiv
          omega
        have hdiv1 : (m + 1) / cols = m / cols + 1 := div_succ_of_mod_eq_zero hmod
        have hmono' := hmono k m hkm hmn
        rw [hstep m hln, yInc, if_pos hmod, hdiv1]
        simp only [Nat.add_sub_cancel]
        rw [← hde]
        linarith
  have key : ∀ k l, k < l → l < hs.length →
      ¬ ((placeGo cols colW pad margin rowHs hs 0 margin).getD k noPlacement).Intersects
        ((placeGo cols colW pad margin rowHs hs 0 margin).getD l noPlacement) := by
    intro k l hkl hln hint
    have hkn : k < hs.length := lt_trans hkl hln
    obtain ⟨px, py, ⟨hax, hax', hay, hay'⟩, ⟨hbx, hbx', hby, hby'⟩⟩ := hint
    have hdle : k / cols ≤ l / cols := Nat.div_le_div_right hkl.le
    rcases eq_or_lt_of_le hdle with hde | hdlt
    · -- same row: the column indices must differ, and k's is smaller
      have hmlt : k % cols < l % cols := by
        have e1 := Nat.div_add_mod k cols
        have e2 := Nat.div_add_mod l cols
        rw [← hde] at e2
        generalize hT : cols * (k / cols) = T at e1 e2
        generalize hA : k % cols = a at e1
        generalize hB : l % cols = b at e2
        omega
      have hsep : ((placeGo cols colW pad margin rowHs hs 0 margin).getD k noPlacement).x
          + colW ≤ ((placeGo cols colW pad margin rowHs hs 0 margin).getD l noPlacement).x := by
        rw [hx k hkn, hx l hln]
        have hcast : ((k % cols : ℕ) : ℤ) + 1 ≤ ((l % cols : ℕ) : ℤ) := by
          exact_mod_cast hmlt
        nlinarith [hcast, hpad, hcw]
      rw [hwf k hkn] at hax'
      linarith
    · -- different rows: k's box ends above l's box
      have hsep : ((placeGo cols colW pad margin rowHs hs 0 margin).getD k noPlacement).y +
          ((placeGo cols colW pad margin rowHs hs 0 margin).getD k noPlacement).h ≤
          ((placeGo cols colW pad margin rowHs hs 0 margin).getD l noPlacement).y := by
        rw [hhf k hkn]
        have h1 := hle k hkn
        have h2 := hrowstep k l hkl hln hdlt
        linarith
      linarith
  intro i j hi hj hij
  rcases Nat.lt_trichotomy i j with hlt | heq | hgt
  · exact key i j hlt hj
  · exact absurd heq hij
  · intro hint
    exact key j i hgt hi (intersects_of_intersects hint)

theorem scaledHeights_nonneg (p : LayoutParams) (panels : List Panel)
    (hcw : 0 ≤ colWidthPx p) : ∀ x ∈ scaledHeights p panels, 0 ≤ x := by
  intro x hx
  rw [scaledHeights] at hx
  obtain ⟨pl, hmem, rfl⟩ := List.mem_map.mp hx
  rw [scaledHeight, pyInt]
  have hq0 : 0 ≤ (pl.height : ℚ) * ((colWidthPx p : ℚ) / (pl.width : ℚ)) :=
    mul_nonneg (Nat.cast_nonneg _) (div_nonneg (by exact_mod_cast hcw) (Nat.cast_nonneg _))
  rw [if_pos hq0]
  exact Int.floor_nonneg.mpr hq0

/-! ## C6: panels do not overlap -/

/-- C6: for every valid assembly — non-empty panel list, at least one
column, positive column width, non-negative padding and margin pixel
values — and all distinct panel indices `i ≠ j`, the placed bounding
boxes (rectangles of size `col_width_px` by `scaled_height` anchored at
the computed positions) do not intersect. -/
theorem c6_no_overlap (p : LayoutParams) (panels : List Panel) (c : Canvas)
    (hne : panels ≠ []) (hcols : 1 ≤ p.numCols) (hcw : 1 ≤ colWidthPx p)
    (hpad : 0 ≤ paddingPx p) (hmar : 0 ≤ marginPx p)
    (hok : assembleFigure p panels = .ok c) :
    ∀ i j, i < c.placements.length → j < c.placements.length → i ≠ j →
      ¬ (c.placements.getD i noPlacement).Intersects (c.placements.getD j noPlacement) := by
  obtain ⟨a, l, rfl⟩ : ∃ a l, panels = a :: l := by
    cases panels with
    | nil => exact absurd rfl hne
    | cons a l => exact ⟨a, l, rfl⟩
  rw [assembleFigure_cons] at hok
  injection hok with hc
  subst hc
  have hpl : (assembleCanvas p (a :: l)).placements =
      placeGo p.numCols (colWidthPx p) (paddingPx p) (marginPx p)
        (rowHeights p.numCols (scaledHeights p (a :: l))) (scaledHeights p (a :: l)) 0
        (marginPx p) := rfl
  have hlen : (assembleCanvas p (a :: l)).placements.length =
      (scaledHeights p (a :: l)).length := by
    rw [hpl]
    exact placeGo_length _ _ _ _ _ _ _ _
  have hrow0 : ∀ m ∈ rowHeights p.numCols (scaledHeights p (a :: l)), 0 ≤ m := by
    rw [rowHeights]
    exact rowHeightsAux_nonneg _ _ _ 0 0 le_rfl
      (scaledHeights_nonneg p (a :: l) (le_trans zero_le_one hcw))
  have hle : ∀ k, k < (scaledHeights p (a :: l)).length →
      (scaledHeights p (a :: l)).getD k 0 ≤
        (rowHeights p.numCols (scaledHeights p (a :: l))).getD (k / p.numCols) 0 := by
    intro k hk
    have := rowHeightsAux_getD_le p.numCols (scaledHeights p (a :: l)).length
      (scaledHeights p (a :: l)) 0 0 k (by omega) hk
    simpa [rowHeights] using this
  intro i j hi hj hij
  rw [hpl]
  rw [hlen] at hi hj
  exact placeGo_no_overlap p.numCols (colWidthPx p) (paddingPx p) (marginPx p)
    (rowHeights p.numCols (scaledHeights p (a :: l))) (scaledHeights p (a :: l))
    hcw hpad hrow0 hle i j hi hj hij

theorem c6_no_overlap_witness :
    ¬ ((assembleCanvas exampleParams examplePanels).placements.getD 0 noPlacement).Intersects
      ((assembleCanvas exampleParams examplePanels).placements.getD 1 noPlacement) :=
  c6_no_overlap exampleParams examplePanels (assembleCanvas exampleParams examplePanels)
    (by decide) (by decide) (by with_unfolding_all decide) (by with_unfolding_all decide)
    (by with_unfolding_all decide) rfl 0 1 (by with_unfolding_all decide)
    (by with_unfolding_all decide) (by decide)
